import Mathlib

/-!
Shallow embedding of `src/TheAmazingAudioEngine/AEUtilities.c`.

The C file manipulates `AudioBufferList` containers: it allocates them
(`AEAllocateAndInitAudioBufferList`), deep-copies them
(`AECopyAudioBufferList`), frees them (`AEFreeAudioBufferList`),
initializes a caller-supplied region as a view (`AEInitAudioBufferList`)
and queries the frame count (`AEGetNumberOfFramesInAudioBufferList`).

Heap model: `malloc`/`free` are modelled by an explicit `Heap` state.  A
block is a pair (address, byte contents); `malloc` consumes one
allocation ordinal and consults a failure oracle `failAt` (the set of
ordinals at which `malloc` returns NULL), which lets us state the
unwind-on-failure claims.  Addresses are integers so that the in-place
view initializer can do pointer arithmetic.  C `int` values are
modelled as `Int` and `UInt32` values as `Nat`; where the source
performs 32-bit arithmetic — the `mBytesPerFrame * frameCount` product
of line 14, the `int`→`UInt32` store into `mDataByteSize`, the unsigned
divisions of lines 72 and 81 — the embedding wraps explicitly with
`% UINT32_MOD` and the `toUInt32`/`toInt32` conversions.
-/

/-- The fields of `AudioStreamBasicDescription` that `AEUtilities.c` reads.
`isNonInterleaved` models the test
`mFormatFlags & kAudioFormatFlagIsNonInterleaved`. -/
structure ASBD where
  isNonInterleaved : Bool
  mChannelsPerFrame : Nat
  mBytesPerFrame : Nat
  mBitsPerChannel : Nat
deriving DecidableEq, Repr

/-- One `AudioBuffer` descriptor.  `mDataByteSize` is the C `UInt32`
field (a value below `2^32`); `mData = none` models a NULL data pointer,
`some a` a pointer to heap address `a`. -/
structure AudioBuffer where
  mNumberChannels : Nat
  mDataByteSize : Nat
  mData : Option Int
deriving DecidableEq, Repr, Inhabited

/-- An `AudioBufferList`; `mNumberBuffers` is `mBuffers.length`. -/
structure AudioBufferList where
  mBuffers : List AudioBuffer
deriving DecidableEq, Repr

/-- Heap state: `next` is the next fresh address, `blocks` the live
allocations (address, contents), `count` the number of `malloc` calls so
far, and `failAt` the oracle of allocation ordinals at which `malloc`
fails (returns NULL). -/
structure Heap where
  next : Int
  blocks : List (Int × List Nat)
  failAt : List Nat
  count : Nat
deriving DecidableEq, Repr

/-- `malloc(size)`: fails when the current ordinal is in `failAt`,
otherwise returns a fresh address whose block holds `size` bytes. -/
def Heap.malloc (h : Heap) (size : Nat) : Option Int × Heap :=
  if h.count ∈ h.failAt then
    (none, { h with count := h.count + 1 })
  else
    (some h.next,
      { next := h.next + 1
        blocks := (h.next, List.replicate size 0) :: h.blocks
        failAt := h.failAt
        count := h.count + 1 })

/-- `free(a)`: removes the block at address `a`. -/
def Heap.free (h : Heap) (a : Int) : Heap :=
  { h with blocks := h.blocks.eraseP (fun p => decide (p.1 = a)) }

/-- Read the contents of the block at address `a`. -/
def Heap.lookupBlock (h : Heap) (a : Int) : Option (List Nat) :=
  List.lookup a h.blocks

/-- Overwrite the contents of the block at address `a`. -/
def Heap.writeBlock (h : Heap) (a : Int) (c : List Nat) : Heap :=
  { h with blocks := h.blocks.map (fun p => if p.1 = a then (p.1, c) else p) }

/-- Every live block's address is below `next` (fresh addresses are fresh). -/
def Heap.keysBound (h : Heap) : Prop :=
  ∀ p ∈ h.blocks, p.1 < h.next

/-- Live block addresses are pairwise distinct. -/
def Heap.keysNodup (h : Heap) : Prop :=
  (h.blocks.map Prod.fst).Nodup

instance (h : Heap) : Decidable h.keysBound := by
  unfold Heap.keysBound; infer_instance

instance (h : Heap) : Decidable h.keysNodup := by
  unfold Heap.keysNodup; infer_instance

/-- `2^32`, the modulus of C 32-bit unsigned arithmetic. -/
def UINT32_MOD : Nat := 4294967296

/-- Conversion of a C `int` value to `unsigned int`: reduction mod `2^32`. -/
def toUInt32 (z : Int) : Nat := (z % (UINT32_MOD : Int)).toNat

/-- Reinterpretation of a 32-bit unsigned value as a two's-complement C
`int` (the `unsigned`→`int` conversion of the targeted ABIs). -/
def toInt32 (n : Nat) : Int :=
  if n % UINT32_MOD < 2 ^ 31 then ((n % UINT32_MOD : Nat) : Int)
  else ((n % UINT32_MOD : Nat) : Int) - (UINT32_MOD : Int)

/-- `sizeof(AudioBuffer)` on the 64-bit Darwin ABI the code targets. -/
def sizeofAudioBuffer : Nat := 16

/-- `sizeof(AudioBufferList)` (which embeds one `AudioBuffer`). -/
def sizeofAudioBufferList : Nat := 24

/-- `sizeof(AudioBufferList) + (numberOfBuffers-1)*sizeof(AudioBuffer)`,
the size the C code passes to `malloc` for the container struct
(computed in `Int` because `numberOfBuffers - 1` is C `int` arithmetic). -/
def ablMallocSize (numberOfBuffers : Nat) : Nat :=
  ((sizeofAudioBufferList : Int)
    + ((numberOfBuffers : Int) - 1) * (sizeofAudioBuffer : Int)).toNat

/-- `numberOfBuffers` as the C code computes it:
`flags & kAudioFormatFlagIsNonInterleaved ? mChannelsPerFrame : 1`. -/
def computedBufferCount (audioFormat : ASBD) : Nat :=
  if audioFormat.isNonInterleaved then audioFormat.mChannelsPerFrame else 1

/-- `channelsPerBuffer` as the C code computes it:
`flags & kAudioFormatFlagIsNonInterleaved ? 1 : mChannelsPerFrame`. -/
def channelsPerBufferOf (audioFormat : ASBD) : Nat :=
  if audioFormat.isNonInterleaved then 1 else audioFormat.mChannelsPerFrame

/-- The cleanup loop `for (j=0; j<i; j++) free(mBuffers[j].mData)` (and
the free loop of `AEFreeAudioBufferList`): frees each buffer's data
pointer, skipping NULL (`free(NULL)` is a no-op).  `bufs` is held most
recently allocated first on the unwind paths. -/
def freeBuffers (h : Heap) (bufs : List AudioBuffer) : Heap :=
  bufs.foldl
    (fun hh b =>
      match b.mData with
      | some a => hh.free a
      | none => hh)
    h

/-- `int bytesPerBuffer = audioFormat->mBytesPerFrame * frameCount`
(line 14): a `UInt32 × int` multiplication, performed in 32-bit unsigned
arithmetic (so it wraps mod `2^32`), whose result is then converted to a
(possibly negative) `int`. -/
def bytesPerBufferOf (audioFormat : ASBD) (frameCount : Int) : Int :=
  toInt32 ((audioFormat.mBytesPerFrame * toUInt32 frameCount) % UINT32_MOD)

/-- The allocation loop of `AEAllocateAndInitAudioBufferList` (lines
21-34): for each of the remaining `n` buffers, if `bytesPerBuffer > 0`
(a signed `int` test) malloc it (on NULL, free all previously allocated
buffers in `acc` and fail), otherwise record a NULL data pointer; every
buffer records `mDataByteSize = bytesPerBuffer` (an `int`→`UInt32`
store, hence `toUInt32`) and `mNumberChannels = channelsPerBuffer`.
`acc` holds the already-built buffers, most recent first. -/
def allocBuffersLoop (bytesPerBuffer : Int) (channelsPerBuffer : Nat) :
    Nat → Heap → List AudioBuffer → Option (List AudioBuffer) × Heap
  | 0, h, acc => (some acc.reverse, h)
  | n + 1, h, acc =>
    if 0 < bytesPerBuffer then
      match h.malloc bytesPerBuffer.toNat with
      | (none, h1) => (none, freeBuffers h1 acc)
      | (some a, h1) =>
        allocBuffersLoop bytesPerBuffer channelsPerBuffer n h1
          (⟨channelsPerBuffer, toUInt32 bytesPerBuffer, some a⟩ :: acc)
    else
      allocBuffersLoop bytesPerBuffer channelsPerBuffer n h
        (⟨channelsPerBuffer, toUInt32 bytesPerBuffer, none⟩ :: acc)

/-- `AEAllocateAndInitAudioBufferList` (lines 11-36). -/
def AEAllocateAndInitAudioBufferList (audioFormat : ASBD) (frameCount : Int)
    (h : Heap) : Option (Int × AudioBufferList) × Heap :=
  let numberOfBuffers := computedBufferCount audioFormat
  let channelsPerBuffer := channelsPerBufferOf audioFormat
  let bytesPerBuffer : Int := bytesPerBufferOf audioFormat frameCount
  match h.malloc (ablMallocSize numberOfBuffers) with
  | (none, h1) => (none, h1)
  | (some cAddr, h1) =>
    match allocBuffersLoop bytesPerBuffer channelsPerBuffer numberOfBuffers h1 [] with
    | (none, h2) => (none, h2.free cAddr)
    | (some bufs, h2) => (some (cAddr, ⟨bufs⟩), h2)

/-- `memcpy(dst, src, sz)` viewed as the resulting contents of `dst`:
the first `sz` bytes of the source block (padded where the C behavior is
undefined, i.e. when the source is NULL or shorter than `sz`). -/
def memcpyContents (src : Option (List Nat)) (sz : Nat) : List Nat :=
  match src with
  | none => List.replicate sz 0
  | some cs => cs.take sz ++ List.replicate (sz - cs.length) 0

/-- The copy loop of `AECopyAudioBufferList` (lines 44-54): for each
source buffer, unconditionally `malloc(mDataByteSize)` (on NULL, free
the buffers already copied in `acc` and fail), copy the metadata, and
`memcpy` the source contents into the new block. -/
def copyBuffersLoop : List AudioBuffer → Heap → List AudioBuffer →
    Option (List AudioBuffer) × Heap
  | [], h, acc => (some acc.reverse, h)
  | b :: rest, h, acc =>
    match h.malloc b.mDataByteSize with
    | (none, h1) => (none, freeBuffers h1 acc)
    | (some a, h1) =>
      copyBuffersLoop rest
        (h1.writeBlock a
          (memcpyContents (b.mData.bind h1.lookupBlock) b.mDataByteSize))
        (⟨b.mNumberChannels, b.mDataByteSize, some a⟩ :: acc)

/-- `AECopyAudioBufferList` (lines 38-56). -/
def AECopyAudioBufferList (original : AudioBufferList) (h : Heap) :
    Option (Int × AudioBufferList) × Heap :=
  match h.malloc (ablMallocSize original.mBuffers.length) with
  | (none, h1) => (none, h1)
  | (some cAddr, h1) =>
    match copyBuffersLoop original.mBuffers h1 [] with
    | (none, h2) => (none, h2.free cAddr)
    | (some bufs, h2) => (some (cAddr, ⟨bufs⟩), h2)

/-- `AEFreeAudioBufferList` (lines 58-63): free each buffer's data
pointer when non-NULL, then free the container itself (`cAddr` is the
address the container struct was allocated at). -/
def AEFreeAudioBufferList (cAddr : Int) (bufferList : AudioBufferList)
    (h : Heap) : Heap :=
  (freeBuffers h bufferList.mBuffers).free cAddr

/-- The result of `AEInitAudioBufferList`: the written `mNumberBuffers`
field and the descriptor slots of the caller-supplied region after the
call. -/
structure InitView where
  mNumberBuffers : Nat
  slots : List AudioBuffer
deriving DecidableEq, Repr

/-- The loop of `AEInitAudioBufferList` (lines 69-73).  `chunk` is
`dataSize/list->mNumberBuffers`, an `int / UInt32` division performed
unsigned; the offset `i * chunk` is again 32-bit unsigned arithmetic.
Note that the C code indexes `list->mBuffers[0]` in the loop body for
all three fields, so every iteration `i` overwrites slot 0 (it never
writes slot `i`). -/
def initLoop (channels : Nat) (data : Int) (chunk : Nat) :
    Nat → Nat → List AudioBuffer → List AudioBuffer
  | _, 0, slots => slots
  | i, n + 1, slots =>
    initLoop channels data chunk (i + 1) n
      (slots.set 0 ⟨channels, chunk,
        some (data + (((i * chunk) % UINT32_MOD : Nat) : Int))⟩)

/-- `AEInitAudioBufferList` (lines 65-74).  `slots` is the descriptor
array of the caller-supplied region, `listSize` its byte size.  The
result is `none` exactly when the `assert` on line 67 fires. -/
def AEInitAudioBufferList (slots : List AudioBuffer) (listSize : Nat)
    (audioFormat : ASBD) (data : Int) (dataSize : Int) : Option InitView :=
  let n := computedBufferCount audioFormat
  if n = 1 ∨ sizeofAudioBufferList + sizeofAudioBuffer ≤ listSize then
    some ⟨n, initLoop (channelsPerBufferOf audioFormat) data
              (toUInt32 dataSize / n) 0 n slots⟩
  else
    none

/-- `AEGetNumberOfFramesInAudioBufferList` (lines 76-82); the second
component is the channel count the function stores through
`oNumberOfChannels` when that pointer is supplied.  The division on line
81 is `UInt32 / unsigned`: the stored byte size is divided as an
unsigned value. -/
def AEGetNumberOfFramesInAudioBufferList (list : AudioBufferList)
    (audioFormat : ASBD) : Nat × Nat :=
  let channelCount :=
    if audioFormat.isNonInterleaved then list.mBuffers.length
    else list.mBuffers.headI.mNumberChannels
  (list.mBuffers.headI.mDataByteSize
      / ((audioFormat.mBitsPerChannel / 8) * channelCount),
   channelCount)

/-- Modelled from the spec (section 4.5): the channel count of a
container, "number of buffers in the container, if non-interleaved;
otherwise the channel count recorded on the first buffer". -/
def specChannelCount (list : AudioBufferList) (audioFormat : ASBD) : Nat :=
  if audioFormat.isNonInterleaved then list.mBuffers.length
  else list.mBuffers.headI.mNumberChannels

/-- Modelled from the spec (section 4.5): "Frame count = first buffer's
byte size ÷ (bits-per-channel / 8 × channel count)". -/
def specFrameCount (list : AudioBufferList) (audioFormat : ASBD) : Nat :=
  list.mBuffers.headI.mDataByteSize
    / ((audioFormat.mBitsPerChannel / 8) * specChannelCount list audioFormat)

/-- A well-formed ("existing") source container for `AECopyAudioBufferList`:
every buffer's data pointer refers to a live heap block whose length
matches the recorded byte size (so the `memcpy` in the copy loop is
defined). -/
def sourceWF (original : AudioBufferList) (h : Heap) : Prop :=
  ∀ b ∈ original.mBuffers, ∃ sa cs, b.mData = some sa ∧
    List.lookup sa h.blocks = some cs ∧ cs.length = b.mDataByteSize
/-! ### Association-list and heap lemmas -/

theorem lookup_cons {β : Type} (a k : Int) (v : β) (t : List (Int × β)) :
    List.lookup a ((k, v) :: t) = if a = k then some v else List.lookup a t := by
  by_cases h : a = k
  · subst h; simp [List.lookup]
  · rw [List.lookup, if_neg h, show (a == k) = false from beq_eq_false_iff_ne.mpr h]

theorem lookup_eq_none_of_not_mem_keys {β : Type} {a : Int} :
    ∀ {l : List (Int × β)}, a ∉ l.map Prod.fst → List.lookup a l = none := by
  intro l
  induction l with
  | nil => intro _; rfl
  | cons p t ih =>
    intro hmem
    simp only [List.map_cons, List.mem_cons] at hmem
    push_neg at hmem
    rw [show p = (p.1, p.2) from rfl, lookup_cons, if_neg hmem.1]
    exact ih hmem.2

theorem mem_of_lookup_eq_some {β : Type} {a : Int} {v : β} :
    ∀ {l : List (Int × β)}, List.lookup a l = some v → (a, v) ∈ l := by
  intro l
  induction l with
  | nil => intro hx; simp [List.lookup] at hx
  | cons p t ih =>
    intro hx
    rw [show p = (p.1, p.2) from rfl, lookup_cons] at hx
    by_cases hak : a = p.1
    · rw [if_pos hak] at hx
      cases hx
      subst hak
      exact List.mem_cons_self _ _
    · rw [if_neg hak] at hx
      exact List.mem_cons_of_mem _ (ih hx)

theorem lookup_eraseP_ne {β : Type} {a b : Int} (hne : b ≠ a) :
    ∀ (l : List (Int × β)),
      List.lookup b (l.eraseP (fun p => decide (p.1 = a))) = List.lookup b l := by
  intro l
  induction l with
  | nil => rfl
  | cons p t ih =>
    by_cases hpa : p.1 = a
    · rw [List.eraseP_cons_of_pos (by simpa using hpa),
        show p = (p.1, p.2) from rfl, lookup_cons, if_neg (by rw [hpa]; exact hne)]
    · rw [List.eraseP_cons_of_neg (by simpa using hpa),
        show p = (p.1, p.2) from rfl, lookup_cons, lookup_cons]
      by_cases hbk : b = p.1
      · rw [if_pos hbk, if_pos hbk]
      · rw [if_neg hbk, if_neg hbk]
        exact ih

theorem lookup_eraseP_self {β : Type} {a : Int} :
    ∀ {l : List (Int × β)}, (l.map Prod.fst).Nodup →
      List.lookup a (l.eraseP (fun p => decide (p.1 = a))) = none := by
  intro l
  induction l with
  | nil => intro _; rfl
  | cons p t ih =>
    intro hnd
    simp only [List.map_cons, List.nodup_cons] at hnd
    by_cases hpa : p.1 = a
    · rw [List.eraseP_cons_of_pos (by simpa using hpa)]
      apply lookup_eq_none_of_not_mem_keys
      rw [← hpa]
      exact hnd.1
    · rw [List.eraseP_cons_of_neg (by simpa using hpa),
        show p = (p.1, p.2) from rfl, lookup_cons,
        if_neg (fun hba => hpa (by rw [← hba]))]
      exact ih hnd.2

theorem keys_eraseP_sublist {β : Type} (a : Int) (l : List (Int × β)) :
    ((l.eraseP (fun p => decide (p.1 = a))).map Prod.fst).Sublist (l.map Prod.fst) :=
  (List.eraseP_sublist l).map Prod.fst

theorem lookup_write_ne {β : Type} {a b : Int} {c : β} (hne : b ≠ a) :
    ∀ (l : List (Int × β)),
      List.lookup b (l.map (fun p => if p.1 = a then (p.1, c) else p)) =
        List.lookup b l := by
  intro l
  induction l with
  | nil => rfl
  | cons p t ih =>
    simp only [List.map_cons]
    by_cases hpa : p.1 = a
    · rw [if_pos hpa, lookup_cons, show p = (p.1, p.2) from rfl, lookup_cons]
      by_cases hbk : b = p.1
      · exact absurd (hbk.trans hpa) hne
      · rw [if_neg hbk, if_neg hbk]
        exact ih
    · rw [if_neg hpa, show p = (p.1, p.2) from rfl, lookup_cons, lookup_cons]
      by_cases hbk : b = p.1
      · rw [if_pos hbk, if_pos hbk]
      · rw [if_neg hbk, if_neg hbk]
        exact ih

theorem write_map_id {β : Type} {a : Int} {c : β} :
    ∀ {l : List (Int × β)}, (∀ p ∈ l, p.1 ≠ a) →
      l.map (fun p => if p.1 = a then (p.1, c) else p) = l := by
  intro l
  induction l with
  | nil => intro _; rfl
  | cons p t ih =>
    intro hl
    simp only [List.map_cons]
    rw [if_neg (hl p (List.mem_cons_self _ _)),
      ih (fun q hq => hl q (List.mem_cons_of_mem _ hq))]

theorem Heap.malloc_some {h : Heap} {s : Nat} {a : Int} {h1 : Heap}
    (hm : h.malloc s = (some a, h1)) :
    a = h.next ∧ h.count ∉ h.failAt ∧
      h1 = ⟨h.next + 1, (h.next, List.replicate s 0) :: h.blocks, h.failAt, h.count + 1⟩ := by
  unfold Heap.malloc at hm
  by_cases hc : h.count ∈ h.failAt
  · rw [if_pos hc] at hm
    cases hm
  · rw [if_neg hc] at hm
    cases hm
    exact ⟨rfl, hc, rfl⟩

theorem Heap.malloc_none {h : Heap} {s : Nat} {h1 : Heap}
    (hm : h.malloc s = (none, h1)) :
    h.count ∈ h.failAt ∧ h1 = { h with count := h.count + 1 } := by
  unfold Heap.malloc at hm
  by_cases hc : h.count ∈ h.failAt
  · rw [if_pos hc] at hm
    cases hm
    exact ⟨hc, rfl⟩
  · rw [if_neg hc] at hm
    cases hm

/-! ### freeBuffers lemmas -/

theorem freeBuffers_nil (h : Heap) : freeBuffers h [] = h := rfl

theorem freeBuffers_cons (h : Heap) (b : AudioBuffer) (tl : List AudioBuffer) :
    freeBuffers h (b :: tl) =
      freeBuffers (match b.mData with | some a => h.free a | none => h) tl := by
  unfold freeBuffers
  rw [List.foldl_cons]

/-- Freeing the accumulated buffers (most recent first) pops exactly the
corresponding prefix of the heap's block list. -/
theorem freeBuffers_pop :
    ∀ (acc : List AudioBuffer) (l rest : List (Int × List Nat)) (h : Heap),
      h.blocks = l ++ rest →
      l.map Prod.fst = acc.filterMap AudioBuffer.mData →
      (freeBuffers h acc).blocks = rest := by
  intro acc
  induction acc with
  | nil =>
    intro l rest h hb hk
    rw [List.filterMap_nil, List.map_eq_nil_iff] at hk
    subst hk
    rw [freeBuffers_nil]
    simpa using hb
  | cons b tl ih =>
    intro l rest h hb hk
    rw [freeBuffers_cons]
    cases hd : b.mData with
    | none =>
      rw [List.filterMap_cons, hd] at hk
      exact ih l rest h hb hk
    | some a =>
      rw [List.filterMap_cons, hd] at hk
      cases l with
      | nil => simp at hk
      | cons q l2 =>
        simp only [List.map_cons, List.cons.injEq] at hk
        have hfree : (h.free a).blocks = l2 ++ rest := by
          unfold Heap.free
          rw [hb, List.cons_append, List.eraseP_cons_of_pos (by simpa using hk.1)]
        exact ih l2 rest (h.free a) hfree hk.2

/-- Freeing buffers whose data addresses all differ from `b` leaves the
block at `b` untouched. -/
theorem freeBuffers_lookup_ne :
    ∀ (bufs : List AudioBuffer) (h : Heap) (b : Int),
      (∀ a ∈ bufs.filterMap AudioBuffer.mData, b ≠ a) →
      List.lookup b (freeBuffers h bufs).blocks = List.lookup b h.blocks := by
  intro bufs
  induction bufs with
  | nil => intro h b _; rfl
  | cons b0 tl ih =>
    intro h b hne
    rw [freeBuffers_cons]
    cases hd : b0.mData with
    | none =>
      have hfm : (b0 :: tl).filterMap AudioBuffer.mData = tl.filterMap AudioBuffer.mData := by
        rw [List.filterMap_cons, hd]
      refine ih h b (fun a ha => hne a ?_)
      rw [hfm]
      exact ha
    | some a0 =>
      have hfm : (b0 :: tl).filterMap AudioBuffer.mData
          = a0 :: tl.filterMap AudioBuffer.mData := by
        rw [List.filterMap_cons, hd]
      have hne0 : b ≠ a0 := hne a0 (by rw [hfm]; exact List.mem_cons_self _ _)
      have hnetl : ∀ a ∈ tl.filterMap AudioBuffer.mData, b ≠ a := by
        intro a ha
        refine hne a ?_
        rw [hfm]
        exact List.mem_cons_of_mem _ ha
      have hstep : List.lookup b (h.free a0).blocks = List.lookup b h.blocks :=
        lookup_eraseP_ne hne0 _
      rw [ih (h.free a0) b hnetl]
      exact hstep

theorem Heap.free_keysNodup {h : Heap} (hnd : h.keysNodup) (a : Int) :
    (h.free a).keysNodup :=
  List.Nodup.sublist (keys_eraseP_sublist a h.blocks) hnd

theorem freeBuffers_keysNodup :
    ∀ (bufs : List AudioBuffer) (h : Heap), h.keysNodup →
      (freeBuffers h bufs).keysNodup := by
  intro bufs
  induction bufs with
  | nil => intro h hnd; exact hnd
  | cons b0 tl ih =>
    intro h hnd
    rw [freeBuffers_cons]
    cases hd : b0.mData with
    | none => exact ih h hnd
    | some a0 => exact ih (h.free a0) (h.free_keysNodup hnd a0)

/-- On a heap with distinct block addresses, freeing the buffers of a
list kills exactly the blocks at the non-NULL data addresses. -/
theorem freeBuffers_lookup :
    ∀ (bufs : List AudioBuffer) (h : Heap), h.keysNodup → ∀ (b : Int),
      List.lookup b (freeBuffers h bufs).blocks =
        if b ∈ bufs.filterMap AudioBuffer.mData then none
        else List.lookup b h.blocks := by
  intro bufs
  induction bufs with
  | nil => intro h _ b; rw [List.filterMap_nil, if_neg (List.not_mem_nil b)]; rfl
  | cons b0 tl ih =>
    intro h hnd b
    rw [freeBuffers_cons]
    cases hd : b0.mData with
    | none =>
      have hfm : (b0 :: tl).filterMap AudioBuffer.mData = tl.filterMap AudioBuffer.mData := by
        rw [List.filterMap_cons, hd]
      rw [hfm]
      exact ih h hnd b
    | some a0 =>
      have hfm : (b0 :: tl).filterMap AudioBuffer.mData
          = a0 :: tl.filterMap AudioBuffer.mData := by
        rw [List.filterMap_cons, hd]
      rw [hfm, ih (h.free a0) (h.free_keysNodup hnd a0) b]
      by_cases htl : b ∈ tl.filterMap AudioBuffer.mData
      · rw [if_pos htl, if_pos (List.mem_cons_of_mem _ htl)]
      · rw [if_neg htl]
        by_cases hba : b = a0
        · rw [if_pos (by rw [hba]; exact List.mem_cons_self _ _)]
          subst hba
          exact lookup_eraseP_self hnd
        · have hnotmem : b ∉ a0 :: tl.filterMap AudioBuffer.mData := by
            intro hmem
            rcases List.mem_cons.mp hmem with h1 | h2
            · exact hba h1
            · exact htl h2
          rw [if_neg hnotmem]
          exact lookup_eraseP_ne hba _

/-! ### Allocation loop lemmas -/

/-- When `bytesPerBuffer ≤ 0` the allocation loop performs no `malloc`
at all: it returns NULL-data buffers and leaves the heap untouched. -/
theorem allocBuffersLoop_nonpos {bytesPerBuffer : Int}
    (hnp : ¬ 0 < bytesPerBuffer) (channelsPerBuffer : Nat) :
    ∀ (n : Nat) (h : Heap) (acc : List AudioBuffer),
      allocBuffersLoop bytesPerBuffer channelsPerBuffer n h acc =
        (some (acc.reverse ++
          List.replicate n ⟨channelsPerBuffer, toUInt32 bytesPerBuffer, none⟩), h) := by
  intro n
  induction n with
  | zero => intro h acc; simp [allocBuffersLoop]
  | succ n ih =>
    intro h acc
    rw [allocBuffersLoop, if_neg hnp, ih]
    rw [List.reverse_cons, List.append_assoc, List.singleton_append,
      ← List.replicate_succ]

/-- Structure of the buffers built by a successful allocation loop. -/
theorem allocBuffersLoop_some {bytesPerBuffer : Int} {channelsPerBuffer : Nat} :
    ∀ {n : Nat} {h : Heap} {acc bufs : List AudioBuffer} {h' : Heap},
      allocBuffersLoop bytesPerBuffer channelsPerBuffer n h acc = (some bufs, h') →
      ∃ tail, bufs = acc.reverse ++ tail ∧ tail.length = n ∧
        ∀ b ∈ tail, b.mNumberChannels = channelsPerBuffer ∧
          b.mDataByteSize = toUInt32 bytesPerBuffer ∧
          (b.mData = none ↔ ¬ 0 < bytesPerBuffer) := by
  intro n
  induction n with
  | zero =>
    intro h acc bufs h' hl
    rw [allocBuffersLoop] at hl
    cases hl
    exact ⟨[], by simp, rfl, by simp⟩
  | succ n ih =>
    intro h acc bufs h' hl
    rw [allocBuffersLoop] at hl
    by_cases hpos : 0 < bytesPerBuffer
    · rw [if_pos hpos] at hl
      cases hm : h.malloc bytesPerBuffer.toNat with
      | mk oa h1 =>
        rw [hm] at hl
        cases oa with
        | none => cases hl
        | some a =>
          rcases ih hl with ⟨tail, hbufs, hlen, hprops⟩
          refine ⟨⟨channelsPerBuffer, toUInt32 bytesPerBuffer, some a⟩ :: tail, ?_, by
            simpa using hlen, ?_⟩
          · rw [hbufs, List.reverse_cons, List.append_assoc, List.singleton_append]
          · intro b hb
            rcases List.mem_cons.mp hb with hb1 | hb2
            · subst hb1
              refine ⟨rfl, rfl, ?_⟩
              constructor
              · intro hx; cases hx
              · intro hx; exact absurd hpos hx
            · exact hprops b hb2
    · rw [if_neg hpos] at hl
      rcases ih hl with ⟨tail, hbufs, hlen, hprops⟩
      refine ⟨⟨channelsPerBuffer, toUInt32 bytesPerBuffer, none⟩ :: tail, ?_, by
        simpa using hlen, ?_⟩
      · rw [hbufs, List.reverse_cons, List.append_assoc, List.singleton_append]
      · intro b hb
        rcases List.mem_cons.mp hb with hb1 | hb2
        · subst hb1
          exact ⟨rfl, rfl, by simp [hpos]⟩
        · exact hprops b hb2

/-- When the allocation loop fails, every buffer allocated by it (held
in `acc`, whose data blocks form the prefix `l` of the heap) is freed:
the heap's blocks return to `rest`. -/
theorem allocBuffersLoop_none {bytesPerBuffer : Int} {channelsPerBuffer : Nat} :
    ∀ {n : Nat} {h : Heap} {acc : List AudioBuffer}
      {l rest : List (Int × List Nat)} {h'' : Heap},
      h.blocks = l ++ rest →
      l.map Prod.fst = acc.filterMap AudioBuffer.mData →
      allocBuffersLoop bytesPerBuffer channelsPerBuffer n h acc = (none, h'') →
      h''.blocks = rest := by
  intro n
  induction n with
  | zero =>
    intro h acc l rest h'' _ _ hl
    rw [allocBuffersLoop] at hl
    cases hl
  | succ n ih =>
    intro h acc l rest h'' hb hk hl
    rw [allocBuffersLoop] at hl
    by_cases hpos : 0 < bytesPerBuffer
    · rw [if_pos hpos] at hl
      cases hm : h.malloc bytesPerBuffer.toNat with
      | mk oa h1 =>
        rw [hm] at hl
        cases oa with
        | none =>
          cases hl
          rcases Heap.malloc_none hm with ⟨_, hh1⟩
          subst hh1
          exact freeBuffers_pop acc l rest _ hb hk
        | some a =>
          rcases Heap.malloc_some hm with ⟨ha, _, hh1⟩
          subst hh1
          refine ih (l := (h.next, List.replicate bytesPerBuffer.toNat 0) :: l)
            (by rw [hb]; rfl) ?_ hl
          rw [List.map_cons, List.filterMap_cons]
          subst ha
          rw [hk]
    · rw [if_neg hpos] at hl
      refine ih (l := l) hb ?_ hl
      rw [List.filterMap_cons]
      exact hk

/-- Unfolding a successful `AEAllocateAndInitAudioBufferList` call into
its container `malloc` and its buffer loop. -/
theorem AEAllocate_some_elim {audioFormat : ASBD} {frameCount : Int} {h : Heap}
    {p : Int × AudioBufferList} {h' : Heap}
    (hs : AEAllocateAndInitAudioBufferList audioFormat frameCount h = (some p, h')) :
    ∃ h1 bufs,
      h.malloc (ablMallocSize (computedBufferCount audioFormat)) = (some p.1, h1) ∧
      allocBuffersLoop (bytesPerBufferOf audioFormat frameCount)
        (channelsPerBufferOf audioFormat) (computedBufferCount audioFormat) h1 []
        = (some bufs, h') ∧
      p.2 = ⟨bufs⟩ := by
  simp only [AEAllocateAndInitAudioBufferList] at hs
  cases hm : h.malloc (ablMallocSize (computedBufferCount audioFormat)) with
  | mk oc h1 =>
    rw [hm] at hs
    cases oc with
    | none => simp at hs
    | some cAddr =>
      dsimp only at hs
      cases hloop : allocBuffersLoop (bytesPerBufferOf audioFormat frameCount)
          (channelsPerBufferOf audioFormat) (computedBufferCount audioFormat) h1 [] with
      | mk ob h2 =>
        rw [hloop] at hs
        cases ob with
        | none => simp at hs
        | some bufs =>
          dsimp only at hs
          rcases Prod.mk.injEq _ _ _ _ ▸ hs with ⟨hp, hh⟩
          cases hp
          cases hh
          exact ⟨h1, bufs, rfl, hloop, rfl⟩

/-- Round trip of the `unsigned`→`int`→`unsigned` conversions. -/
theorem toUInt32_toInt32 (n : Nat) : toUInt32 (toInt32 n) = n % UINT32_MOD := by
  unfold toUInt32 toInt32
  have hmlt : ((n % UINT32_MOD : Nat) : Int) < (UINT32_MOD : Int) := by
    exact_mod_cast Nat.mod_lt n (by decide : 0 < UINT32_MOD)
  by_cases hlt : n % UINT32_MOD < 2 ^ 31
  · rw [if_pos hlt, Int.emod_eq_of_lt (Int.natCast_nonneg _) hmlt]
    exact Int.toNat_natCast _
  · rw [if_neg hlt]
    simp only [UINT32_MOD] at hmlt ⊢
    omega

/-- Below `2^31` the `unsigned`→`int` reinterpretation is the identity. -/
theorem toInt32_ofSmall {n : Nat} (h : n < 2 ^ 31) : toInt32 n = (n : Int) := by
  unfold toInt32
  rw [Nat.mod_eq_of_lt (lt_trans h (by decide))]
  rw [if_pos h]

/-- When `mBytesPerFrame * frameCount` does not overflow a 32-bit `int`
(nonnegative frame count, mathematical product below `2^31`), the
program computes the mathematical product: `bytesPerBuffer` is that
product and the `UInt32` store preserves it. -/
theorem bytesPerBufferOf_no_overflow {audioFormat : ASBD} {frameCount : Int}
    (hF : 0 ≤ frameCount)
    (hnw : audioFormat.mBytesPerFrame * frameCount.toNat < 2 ^ 31) :
    bytesPerBufferOf audioFormat frameCount
      = ((audioFormat.mBytesPerFrame * frameCount.toNat : Nat) : Int) ∧
    toUInt32 (bytesPerBufferOf audioFormat frameCount)
      = audioFormat.mBytesPerFrame * frameCount.toNat := by
  have hu : (audioFormat.mBytesPerFrame * toUInt32 frameCount) % UINT32_MOD
      = audioFormat.mBytesPerFrame * frameCount.toNat := by
    rcases Nat.eq_zero_or_pos audioFormat.mBytesPerFrame with h0 | hpos
    · rw [h0, Nat.zero_mul, Nat.zero_mul, Nat.zero_mod]
    · have hFlt : frameCount.toNat < 2 ^ 31 := by
        have hle : frameCount.toNat ≤ audioFormat.mBytesPerFrame * frameCount.toNat :=
          Nat.le_mul_of_pos_left _ hpos
        omega
      have hFsm : toUInt32 frameCount = frameCount.toNat := by
        have hlt : frameCount < (UINT32_MOD : Int) := by
          have h1 : frameCount = ((frameCount.toNat : Nat) : Int) :=
            (Int.toNat_of_nonneg hF).symm
          rw [h1]
          exact_mod_cast lt_trans hFlt (by decide : (2 ^ 31 : Nat) < UINT32_MOD)
        unfold toUInt32
        rw [Int.emod_eq_of_lt hF hlt]
      rw [hFsm]
      exact Nat.mod_eq_of_lt (lt_trans hnw (by decide))
  constructor
  · rw [bytesPerBufferOf, hu]
    exact toInt32_ofSmall hnw
  · rw [bytesPerBufferOf, hu, toUInt32_toInt32]
    exact Nat.mod_eq_of_lt (lt_trans hnw (by decide))

/-- Counterexample to C1 as stated: at the valid interleaved stereo
format (4 bytes per frame) and the positive frame count `2^30`, the
32-bit product `4 * 2^30` wraps to 0 (line 14), so allocate returns a
container whose single buffer has byte size 0 and a NULL data pointer,
not byte size `bytesPerFrame * frameCount = 2^32`. -/
theorem claim_C1_allocate_structure_counterexample :
    (0 : Int) < 1073741824 ∧
    ((AEAllocateAndInitAudioBufferList ⟨false, 2, 4, 16⟩ 1073741824
        ⟨0, [], [], 0⟩).1.map
      (fun p => p.2.mBuffers.map AudioBuffer.mDataByteSize) = some [0]) ∧
    (0 : Nat) ≠ 4 * 1073741824 := by decide

/-- Claim C1 (amended): for every format and positive frame count whose
byte product `mBytesPerFrame * frameCount` stays below `2^31` (no 32-bit
overflow), a successful `AEAllocateAndInitAudioBufferList` call returns
a container matching the format: non-interleaved gives
`mChannelsPerFrame` buffers of `mBytesPerFrame * frameCount` bytes, 1
channel each; interleaved gives exactly 1 buffer of `mBytesPerFrame *
frameCount` bytes carrying `mChannelsPerFrame` channels. -/
theorem claim_C1_allocate_structure (audioFormat : ASBD) (frameCount : Int)
    (h : Heap) (p : Int × AudioBufferList) (h' : Heap)
    (hF : 0 < frameCount)
    (hnw : audioFormat.mBytesPerFrame * frameCount.toNat < 2 ^ 31)
    (hs : AEAllocateAndInitAudioBufferList audioFormat frameCount h = (some p, h')) :
    (audioFormat.isNonInterleaved = true →
      p.2.mBuffers.length = audioFormat.mChannelsPerFrame ∧
      ∀ b ∈ p.2.mBuffers,
        b.mDataByteSize = audioFormat.mBytesPerFrame * frameCount.toNat ∧
        b.mNumberChannels = 1) ∧
    (audioFormat.isNonInterleaved = false →
      p.2.mBuffers.length = 1 ∧
      ∀ b ∈ p.2.mBuffers,
        b.mDataByteSize = audioFormat.mBytesPerFrame * frameCount.toNat ∧
        b.mNumberChannels = audioFormat.mChannelsPerFrame) := by
  rcases AEAllocate_some_elim hs with ⟨h1, bufs, _, hloop, hp2⟩
  rcases allocBuffersLoop_some hloop with ⟨tail, hbufs, hlen, hprops⟩
  rw [List.reverse_nil, List.nil_append] at hbufs
  subst hbufs
  have hsize := (bytesPerBufferOf_no_overflow (le_of_lt hF) hnw).2
  constructor
  · intro hni
    have hcount : computedBufferCount audioFormat = audioFormat.mChannelsPerFrame := by
      rw [computedBufferCount, hni, if_pos rfl]
    have hch : channelsPerBufferOf audioFormat = 1 := by
      rw [channelsPerBufferOf, hni, if_pos rfl]
    refine ⟨by rw [hp2, hlen, hcount], ?_⟩
    intro b hb
    rw [hp2] at hb
    rcases hprops b hb with ⟨hc, hsz, _⟩
    exact ⟨by rw [hsz, hsize], by rw [hc, hch]⟩
  · intro hni
    have hcount : computedBufferCount audioFormat = 1 := by
      rw [computedBufferCount, hni]
      simp
    have hch : channelsPerBufferOf audioFormat = audioFormat.mChannelsPerFrame := by
      rw [channelsPerBufferOf, hni]
      simp
    refine ⟨by rw [hp2, hlen, hcount], ?_⟩
    intro b hb
    rw [hp2] at hb
    rcases hprops b hb with ⟨hc, hsz, _⟩
    exact ⟨by rw [hsz, hsize], by rw [hc, hch]⟩

/-- Witness for C1 (amended): non-interleaved stereo, 4 bytes per frame,
2 frames (product 8, far from overflow), on an initially empty heap that
never fails. -/
theorem claim_C1_allocate_structure_witness :
    ((true : Bool) = true →
      (AudioBufferList.mk [⟨1, 8, some 1⟩, ⟨1, 8, some 2⟩]).mBuffers.length = 2 ∧
      ∀ b ∈ (AudioBufferList.mk [⟨1, 8, some 1⟩, ⟨1, 8, some 2⟩]).mBuffers,
        b.mDataByteSize = 4 * (2 : Int).toNat ∧ b.mNumberChannels = 1) ∧
    ((true : Bool) = false →
      (AudioBufferList.mk [⟨1, 8, some 1⟩, ⟨1, 8, some 2⟩]).mBuffers.length = 1 ∧
      ∀ b ∈ (AudioBufferList.mk [⟨1, 8, some 1⟩, ⟨1, 8, some 2⟩]).mBuffers,
        b.mDataByteSize = 4 * (2 : Int).toNat ∧ b.mNumberChannels = 2) :=
  claim_C1_allocate_structure ⟨true, 2, 4, 16⟩ 2 ⟨0, [], [], 0⟩
    (0, ⟨[⟨1, 8, some 1⟩, ⟨1, 8, some 2⟩]⟩)
    ⟨3, [(2, List.replicate 8 0), (1, List.replicate 8 0),
         (0, List.replicate 40 0)], [], 3⟩
    (by decide) (by decide) (by decide)

/-- Claim C8: when the program's `bytesPerBuffer` (the wrapped 32-bit
product of line 14) is zero or negative, `AEAllocateAndInitAudioBufferList`
attempts no backing allocation (only the container struct is allocated:
the malloc ordinal advances by exactly one), records NULL data pointers,
stores that zero-or-negative `int` as given into the `UInt32` byte-size
field (so reinterpreting the stored field as an `int` gives back
`bytesPerBuffer`), and succeeds. -/
theorem claim_C8_empty_buffers (audioFormat : ASBD) (frameCount : Int) (h : Heap)
    (hnp : bytesPerBufferOf audioFormat frameCount ≤ 0)
    (hok : h.count ∉ h.failAt) :
    ∃ abl h',
      AEAllocateAndInitAudioBufferList audioFormat frameCount h
        = (some (h.next, abl), h') ∧
      abl.mBuffers.length = computedBufferCount audioFormat ∧
      (∀ b ∈ abl.mBuffers, b.mData = none ∧
        b.mDataByteSize
          = (audioFormat.mBytesPerFrame * toUInt32 frameCount) % UINT32_MOD ∧
        toInt32 b.mDataByteSize = bytesPerBufferOf audioFormat frameCount) ∧
      h'.count = h.count + 1 ∧
      h'.blocks = (h.next,
        List.replicate (ablMallocSize (computedBufferCount audioFormat)) 0)
          :: h.blocks := by
  have hm : h.malloc (ablMallocSize (computedBufferCount audioFormat)) =
      (some h.next,
        ⟨h.next + 1,
          (h.next, List.replicate (ablMallocSize (computedBufferCount audioFormat)) 0)
            :: h.blocks, h.failAt, h.count + 1⟩) := by
    unfold Heap.malloc
    rw [if_neg hok]
  have hstore : toUInt32 (bytesPerBufferOf audioFormat frameCount)
      = (audioFormat.mBytesPerFrame * toUInt32 frameCount) % UINT32_MOD := by
    rw [bytesPerBufferOf, toUInt32_toInt32, Nat.mod_mod_of_dvd _ dvd_rfl]
  refine ⟨⟨List.replicate (computedBufferCount audioFormat)
      ⟨channelsPerBufferOf audioFormat,
        toUInt32 (bytesPerBufferOf audioFormat frameCount), none⟩⟩,
    ⟨h.next + 1,
      (h.next, List.replicate (ablMallocSize (computedBufferCount audioFormat)) 0)
        :: h.blocks, h.failAt, h.count + 1⟩, ?_, by simp, ?_, rfl, rfl⟩
  · simp only [AEAllocateAndInitAudioBufferList]
    rw [hm]
    dsimp only
    rw [allocBuffersLoop_nonpos (not_lt.mpr hnp)]
    dsimp only
    rw [List.reverse_nil, List.nil_append]
  · intro b hb
    rw [List.eq_of_mem_replicate hb]
    refine ⟨rfl, hstore, ?_⟩
    show toInt32 (toUInt32 (bytesPerBufferOf audioFormat frameCount)) = _
    rw [hstore]
    rfl

/-- Witness for C8: interleaved mono, 4 bytes per frame, frame count
`2^30`: the 32-bit product wraps to exactly 0 (the "computes to zero"
case), so no backing allocation is attempted and the byte size records
0. -/
theorem claim_C8_empty_buffers_witness :
    ∃ abl h',
      AEAllocateAndInitAudioBufferList ⟨false, 1, 4, 16⟩ 1073741824 ⟨0, [], [], 0⟩
        = (some (0, abl), h') ∧
      abl.mBuffers.length = computedBufferCount ⟨false, 1, 4, 16⟩ ∧
      (∀ b ∈ abl.mBuffers, b.mData = none ∧
        b.mDataByteSize = (4 * toUInt32 1073741824) % UINT32_MOD ∧
        toInt32 b.mDataByteSize = bytesPerBufferOf ⟨false, 1, 4, 16⟩ 1073741824) ∧
      h'.count = 0 + 1 ∧
      h'.blocks = (0,
        List.replicate (ablMallocSize (computedBufferCount ⟨false, 1, 4, 16⟩)) 0)
          :: [] :=
  claim_C8_empty_buffers ⟨false, 1, 4, 16⟩ 1073741824 ⟨0, [], [], 0⟩
    (by decide) (by decide)

/-! ### Copy loop lemmas -/

/-- A `Forall₂` upgrade that may use membership of the right list. -/
theorem forall₂_imp_mem {α : Type} {P Q : α → α → Prop} :
    ∀ {l1 l2 : List α}, List.Forall₂ P l1 l2 →
      (∀ s ∈ l2, ∀ b, P b s → Q b s) → List.Forall₂ Q l1 l2 := by
  intro l1 l2 hf
  induction hf with
  | nil => intro _; exact List.Forall₂.nil
  | cons hps htail ih =>
    intro hup
    exact List.Forall₂.cons
      (hup _ (List.mem_cons_self _ _) _ hps)
      (ih (fun s hs b hb => hup s (List.mem_cons_of_mem _ hs) b hb))

/-- Writing a freshly allocated block at the head of the heap only
changes that head. -/
theorem writeBlock_cons_fresh {a : Int} {c repl : List Nat}
    {l rest : List (Int × List Nat)} {h : Heap}
    (hb : h.blocks = (a, repl) :: (l ++ rest))
    (hl : ∀ k ∈ l.map Prod.fst, k < a)
    (hr : ∀ p ∈ rest, p.1 < a) :
    (h.writeBlock a c).blocks = (a, c) :: (l ++ rest) := by
  unfold Heap.writeBlock
  rw [hb]
  simp only [List.map_cons, List.map_append]
  rw [if_pos trivial]
  rw [write_map_id (fun q hq => ne_of_lt (hl q.1 (List.mem_map_of_mem Prod.fst hq)))]
  rw [write_map_id (fun q hq => ne_of_lt (hr q hq))]

/-- When the copy loop fails, the blocks of the buffers it had already
allocated (the prefix `l`) are freed and the heap's blocks return to
`rest`. -/
theorem copyBuffersLoop_none (bound : Int) :
    ∀ {rem : List AudioBuffer} {h : Heap} {acc : List AudioBuffer}
      {l rest : List (Int × List Nat)} {h'' : Heap},
      h.blocks = l ++ rest →
      l.map Prod.fst = acc.filterMap AudioBuffer.mData →
      (∀ k ∈ l.map Prod.fst, k < h.next) →
      (∀ p ∈ rest, p.1 < bound) →
      bound ≤ h.next →
      copyBuffersLoop rem h acc = (none, h'') →
      h''.blocks = rest := by
  intro rem
  induction rem with
  | nil =>
    intro h acc l rest h'' _ _ _ _ _ hl
    rw [copyBuffersLoop] at hl
    cases hl
  | cons s rest' ih =>
    intro h acc l rest h'' hb hk hlt hrest hble hl
    rw [copyBuffersLoop] at hl
    cases hm : h.malloc s.mDataByteSize with
    | mk oa h1 =>
      rw [hm] at hl
      cases oa with
      | none =>
        dsimp only at hl
        cases hl
        rcases Heap.malloc_none hm with ⟨_, hh1⟩
        subst hh1
        exact freeBuffers_pop acc l rest _ hb hk
      | some a =>
        dsimp only at hl
        rcases Heap.malloc_some hm with ⟨ha, _, hh1⟩
        subst ha
        subst hh1
        refine ih (l := (h.next,
            memcpyContents (s.mData.bind
              (Heap.lookupBlock ⟨h.next + 1,
                (h.next, List.replicate s.mDataByteSize 0) :: h.blocks,
                h.failAt, h.count + 1⟩)) s.mDataByteSize) :: l)
          ?_ ?_ ?_ hrest ?_ hl
        · have hb1 : ((⟨h.next + 1,
              (h.next, List.replicate s.mDataByteSize 0) :: h.blocks,
              h.failAt, h.count + 1⟩ : Heap)).blocks
              = (h.next, List.replicate s.mDataByteSize 0) :: (l ++ rest) := by
            show (h.next, List.replicate s.mDataByteSize 0) :: h.blocks = _
            rw [hb]
          exact writeBlock_cons_fresh hb1 hlt
            (fun p hp => lt_of_lt_of_le (hrest p hp) hble)
        · rw [List.map_cons, List.filterMap_cons]
          rw [hk]
        · intro k hkmem
          rcases List.mem_cons.mp hkmem with hk1 | hk2
          · rw [hk1]
            exact lt_add_one h.next
          · exact lt_trans (hlt k hk2) (lt_add_one h.next)
        · exact le_trans hble (le_of_lt (lt_add_one h.next))

theorem lookup_write_head {a : Int} {v c : List Nat} (l : List (Int × List Nat)) :
    List.lookup a (((a, v) :: l).map (fun p => if p.1 = a then (p.1, c) else p))
      = some c := by
  simp only [List.map_cons]
  rw [if_pos trivial]
  rw [lookup_cons, if_pos rfl]

theorem lookup_write_cons_ne {x a : Int} {v c : List Nat}
    (l : List (Int × List Nat)) (hne : x ≠ a) :
    List.lookup x (((a, v) :: l).map (fun p => if p.1 = a then (p.1, c) else p))
      = List.lookup x l := by
  simp only [List.map_cons]
  rw [if_pos trivial]
  rw [lookup_cons, if_neg hne]
  exact lookup_write_ne hne l

/-- Reading back the block just written at the fresh head of the heap
after a successful `malloc`. -/
theorem writeBlock_head_lookup {v c : List Nat} (h : Heap) :
    List.lookup h.next
      ((Heap.writeBlock ⟨h.next + 1, (h.next, v) :: h.blocks, h.failAt, h.count + 1⟩
        h.next c).blocks) = some c := by
  show List.lookup h.next (((h.next, v) :: h.blocks).map
    (fun p => if p.1 = h.next then (p.1, c) else p)) = some c
  exact lookup_write_head h.blocks

/-- Writing the fresh head block does not disturb any other address. -/
theorem writeBlock_fresh_lookup_ne {v c : List Nat} (h : Heap) {x : Int}
    (hne : x ≠ h.next) :
    List.lookup x
      ((Heap.writeBlock ⟨h.next + 1, (h.next, v) :: h.blocks, h.failAt, h.count + 1⟩
        h.next c).blocks) = List.lookup x h.blocks := by
  show List.lookup x (((h.next, v) :: h.blocks).map
    (fun p => if p.1 = h.next then (p.1, c) else p)) = List.lookup x h.blocks
  exact lookup_write_cons_ne h.blocks hne

/-- Structure, freshness and contents of a successful copy loop: the
heap grows, pre-existing blocks are untouched, and each new buffer got a
fresh block holding a byte-for-byte copy of its source block. -/
theorem copyBuffersLoop_some :
    ∀ {rem : List AudioBuffer} {h : Heap} {acc bufs : List AudioBuffer} {h' : Heap},
      copyBuffersLoop rem h acc = (some bufs, h') →
      (∀ b ∈ rem, ∀ sa, b.mData = some sa → sa < h.next) →
      h.next ≤ h'.next ∧
      (∀ x, x < h.next → List.lookup x h'.blocks = List.lookup x h.blocks) ∧
      ∃ tail, bufs = acc.reverse ++ tail ∧
        List.Forall₂ (fun b s =>
          b.mNumberChannels = s.mNumberChannels ∧
          b.mDataByteSize = s.mDataByteSize ∧
          ∃ a, b.mData = some a ∧ h.next ≤ a ∧
            List.lookup a h'.blocks =
              some (memcpyContents
                (s.mData.bind (fun sa => List.lookup sa h.blocks))
                s.mDataByteSize)) tail rem := by
  intro rem
  induction rem with
  | nil =>
    intro h acc bufs h' hl _
    rw [copyBuffersLoop] at hl
    cases hl
    exact ⟨le_refl _, fun x _ => rfl, [], by simp, List.Forall₂.nil⟩
  | cons s rest' ih =>
    intro h acc bufs h' hl hsrc
    rw [copyBuffersLoop] at hl
    cases hm : h.malloc s.mDataByteSize with
    | mk oa h1 =>
      rw [hm] at hl
      cases oa with
      | none => dsimp only at hl; cases hl
      | some a =>
        dsimp only at hl
        rcases Heap.malloc_some hm with ⟨ha, _, hh1⟩
        subst ha
        subst hh1
        have hsrc' : ∀ b ∈ rest', ∀ sa, b.mData = some sa → sa < h.next + 1 :=
          fun b hb sa hsa =>
            lt_trans (hsrc b (List.mem_cons_of_mem _ hb) sa hsa) (lt_add_one _)
        rcases ih hl hsrc' with ⟨hn2, pres2, tail', hbufs, hf2⟩
        have hlook1 : ∀ x, x ≠ h.next →
            List.lookup x ((h.next, List.replicate s.mDataByteSize 0)
              :: h.blocks) = List.lookup x h.blocks := by
          intro x hx
          rw [lookup_cons, if_neg hx]
        have hCeq : memcpyContents
            (s.mData.bind (Heap.lookupBlock
              ⟨h.next + 1, (h.next, List.replicate s.mDataByteSize 0)
                :: h.blocks, h.failAt, h.count + 1⟩)) s.mDataByteSize
            = memcpyContents
              (s.mData.bind (fun sa => List.lookup sa h.blocks))
              s.mDataByteSize := by
          refine congrArg (fun o => memcpyContents o s.mDataByteSize)
            (Option.bind_congr ?_)
          intro sa hsa
          have hlt : sa < h.next :=
            hsrc s (List.mem_cons_self _ _) sa (Option.mem_def.mp hsa)
          exact hlook1 sa (ne_of_lt hlt)
        refine ⟨le_trans (le_of_lt (lt_add_one _)) hn2, ?_, ?_⟩
        · intro x hx
          rw [pres2 x (lt_trans hx (lt_add_one _))]
          exact writeBlock_fresh_lookup_ne h (ne_of_lt hx)
        · refine ⟨⟨s.mNumberChannels, s.mDataByteSize, some h.next⟩ :: tail', ?_, ?_⟩
          · rw [hbufs, List.reverse_cons, List.append_assoc, List.singleton_append]
          · refine List.Forall₂.cons ⟨rfl, rfl, h.next, rfl, le_refl _, ?_⟩ ?_
            · rw [pres2 h.next (lt_add_one _), writeBlock_head_lookup h, hCeq]
            · refine forall₂_imp_mem hf2 ?_
              intro r hr b hP
              rcases hP with ⟨hc, hsz, a', hdata, hle, hlook⟩
              refine ⟨hc, hsz, a', hdata,
                le_trans (le_of_lt (lt_add_one _)) hle, ?_⟩
              rw [hlook]
              refine congrArg some (congrArg
                (fun o => memcpyContents o r.mDataByteSize)
                (Option.bind_congr ?_))
              intro sa hsa
              have hlt : sa < h.next :=
                hsrc r (List.mem_cons_of_mem _ hr) sa (Option.mem_def.mp hsa)
              exact writeBlock_fresh_lookup_ne h (ne_of_lt hlt)

/-- The copy loop performs exactly one allocation attempt per remaining
source buffer (regardless of the source's data pointers), and succeeds
exactly when none of those ordinals is marked to fail. -/
theorem copyBuffersLoop_isSome :
    ∀ (rem : List AudioBuffer) (h : Heap) (acc : List AudioBuffer),
      ((copyBuffersLoop rem h acc).1.isSome = true ↔
        ∀ j, j < rem.length → (h.count + j) ∉ h.failAt) := by
  intro rem
  induction rem with
  | nil =>
    intro h acc
    rw [copyBuffersLoop]
    simp
  | cons s rest' ih =>
    intro h acc
    rw [copyBuffersLoop]
    by_cases hc : h.count ∈ h.failAt
    · have hm : h.malloc s.mDataByteSize
          = (none, { h with count := h.count + 1 }) := by
        unfold Heap.malloc
        rw [if_pos hc]
      rw [hm]
      dsimp only
      constructor
      · intro hx
        simp at hx
      · intro hall
        refine absurd hc ?_
        have := hall 0 (by rw [List.length_cons]; omega)
        simpa using this
    · have hm : h.malloc s.mDataByteSize
          = (some h.next, ⟨h.next + 1,
              (h.next, List.replicate s.mDataByteSize 0) :: h.blocks,
              h.failAt, h.count + 1⟩) := by
        unfold Heap.malloc
        rw [if_neg hc]
      rw [hm]
      dsimp only
      rw [ih]
      constructor
      · intro hall j hj
        cases j with
        | zero => simpa using hc
        | succ j =>
          have hj' : j < rest'.length := by
            rw [List.length_cons] at hj
            omega
          have := hall j hj'
          have heq : h.count + (j + 1) = h.count + 1 + j := by omega
          rw [heq]
          exact this
      · intro hall j hj
        have := hall (j + 1) (by rw [List.length_cons]; omega)
        show h.count + 1 + j ∉ h.failAt
        have heq : h.count + 1 + j = h.count + (j + 1) := by omega
        rw [heq]
        exact this

/-- Every buffer built by the copy loop carries a non-NULL data pointer
(whatever the source buffer's pointer was). -/
theorem copyBuffersLoop_some_data :
    ∀ {rem : List AudioBuffer} {h : Heap} {acc bufs : List AudioBuffer} {h' : Heap},
      copyBuffersLoop rem h acc = (some bufs, h') →
      ∀ b ∈ bufs, b ∈ acc ∨ b.mData.isSome = true := by
  intro rem
  induction rem with
  | nil =>
    intro h acc bufs h' hl b hb
    rw [copyBuffersLoop] at hl
    cases hl
    exact Or.inl (List.mem_reverse.mp hb)
  | cons s rest' ih =>
    intro h acc bufs h' hl b hb
    rw [copyBuffersLoop] at hl
    cases hm : h.malloc s.mDataByteSize with
    | mk oa h1 =>
      rw [hm] at hl
      cases oa with
      | none => dsimp only at hl; cases hl
      | some a =>
        dsimp only at hl
        rcases ih hl b hb with hacc | hdata
        · rcases List.mem_cons.mp hacc with hb1 | hb2
          · subst hb1
            exact Or.inr rfl
          · exact Or.inl hb2
        · exact Or.inr hdata

/-- When `AEAllocateAndInitAudioBufferList` fails it has freed
everything it allocated: the heap's live blocks are unchanged. -/
theorem AEAllocate_none_blocks (h : Heap) :
    ∀ (audioFormat : ASBD) (frameCount : Int) (h' : Heap),
      AEAllocateAndInitAudioBufferList audioFormat frameCount h = (none, h') →
      h'.blocks = h.blocks := by
  intro audioFormat frameCount h' hs
  simp only [AEAllocateAndInitAudioBufferList] at hs
  cases hm : h.malloc (ablMallocSize (computedBufferCount audioFormat)) with
  | mk oc h1 =>
    rw [hm] at hs
    cases oc with
    | none =>
      dsimp only at hs
      cases hs
      rcases Heap.malloc_none hm with ⟨_, hh1⟩
      subst hh1
      rfl
    | some cAddr =>
      dsimp only at hs
      cases hloop : allocBuffersLoop (bytesPerBufferOf audioFormat frameCount)
          (channelsPerBufferOf audioFormat) (computedBufferCount audioFormat) h1 [] with
      | mk ob h2 =>
        rw [hloop] at hs
        cases ob with
        | some bufs => simp at hs
        | none =>
          dsimp only at hs
          cases hs
          rcases Heap.malloc_some hm with ⟨hca, _, hh1⟩
          subst hca
          subst hh1
          have h2b : h2.blocks
              = (h.next, List.replicate
                  (ablMallocSize (computedBufferCount audioFormat)) 0) :: h.blocks :=
            allocBuffersLoop_none (l := []) rfl
              (show List.map Prod.fst ([] : List (Int × List Nat)) = List.filterMap AudioBuffer.mData [] from rfl) hloop
          show (h2.free h.next).blocks = h.blocks
          unfold Heap.free
          rw [h2b, List.eraseP_cons_of_pos (by simp)]

/-- When `AECopyAudioBufferList` fails it has freed everything it
allocated: the heap's live blocks are unchanged. -/
theorem AECopy_none_blocks (h : Heap) (hb : h.keysBound) :
    ∀ (original : AudioBufferList) (h' : Heap),
      AECopyAudioBufferList original h = (none, h') →
      h'.blocks = h.blocks := by
  intro original h' hs
  simp only [AECopyAudioBufferList] at hs
  cases hm : h.malloc (ablMallocSize original.mBuffers.length) with
  | mk oc h1 =>
    rw [hm] at hs
    cases oc with
    | none =>
      dsimp only at hs
      cases hs
      rcases Heap.malloc_none hm with ⟨_, hh1⟩
      subst hh1
      rfl
    | some cAddr =>
      dsimp only at hs
      cases hloop : copyBuffersLoop original.mBuffers h1 [] with
      | mk ob h2 =>
        rw [hloop] at hs
        cases ob with
        | some bufs => simp at hs
        | none =>
          dsimp only at hs
          cases hs
          rcases Heap.malloc_some hm with ⟨hca, _, hh1⟩
          subst hca
          subst hh1
          have h2b : h2.blocks
              = (h.next, List.replicate
                  (ablMallocSize original.mBuffers.length) 0) :: h.blocks := by
            refine copyBuffersLoop_none (h.next + 1) (l := []) rfl
              (show List.map Prod.fst ([] : List (Int × List Nat)) = List.filterMap AudioBuffer.mData [] from rfl) ?_ ?_ ?_ hloop
            · intro k hk
              cases hk
            · intro p hp
              rcases List.mem_cons.mp hp with hp1 | hp2
              · rw [hp1]
                exact lt_add_one _
              · exact lt_trans (hb p hp2) (lt_add_one _)
            · exact le_refl _
          show (h2.free h.next).blocks = h.blocks
          unfold Heap.free
          rw [h2b, List.eraseP_cons_of_pos (by simp)]

/-- Unfolding a successful `AECopyAudioBufferList` call into its
container `malloc` and its copy loop. -/
theorem AECopy_some_elim {original : AudioBufferList} {h : Heap}
    {p : Int × AudioBufferList} {h' : Heap}
    (hs : AECopyAudioBufferList original h = (some p, h')) :
    ∃ h1 bufs,
      h.malloc (ablMallocSize original.mBuffers.length) = (some p.1, h1) ∧
      copyBuffersLoop original.mBuffers h1 [] = (some bufs, h') ∧
      p.2 = ⟨bufs⟩ := by
  simp only [AECopyAudioBufferList] at hs
  cases hm : h.malloc (ablMallocSize original.mBuffers.length) with
  | mk oc h1 =>
    rw [hm] at hs
    cases oc with
    | none => simp at hs
    | some cAddr =>
      dsimp only at hs
      cases hloop : copyBuffersLoop original.mBuffers h1 [] with
      | mk ob h2 =>
        rw [hloop] at hs
        cases ob with
        | none => simp at hs
        | some bufs =>
          dsimp only at hs
          rcases Prod.mk.injEq _ _ _ _ ▸ hs with ⟨hp, hh⟩
          cases hp
          cases hh
          exact ⟨h1, bufs, rfl, hloop, rfl⟩

/-- Claim C2: whenever an allocation fails during
`AEAllocateAndInitAudioBufferList` or `AECopyAudioBufferList`, every
buffer allocated by that same call and the partially built container are
released and the call returns NULL, so the live heap blocks return
exactly to the pre-call baseline. -/
theorem claim_C2_failure_releases_all (h : Heap) (hkeys : h.keysBound) :
    (∀ (audioFormat : ASBD) (frameCount : Int) (h' : Heap),
      AEAllocateAndInitAudioBufferList audioFormat frameCount h = (none, h') →
      h'.blocks = h.blocks) ∧
    (∀ (original : AudioBufferList) (h' : Heap),
      AECopyAudioBufferList original h = (none, h') →
      h'.blocks = h.blocks) :=
  ⟨AEAllocate_none_blocks h, AECopy_none_blocks h hkeys⟩

/-- Witness for C2: the oracle fails the first buffer allocation (ordinal
1, after the container's ordinal 0); the failing call leaves the empty
heap's block list unchanged. -/
theorem claim_C2_failure_releases_all_witness :
    (⟨1, [], [1], 2⟩ : Heap).blocks = (⟨0, [], [1], 0⟩ : Heap).blocks :=
  (claim_C2_failure_releases_all ⟨0, [], [1], 0⟩ (by decide)).1
    ⟨false, 1, 4, 16⟩ 2 ⟨1, [], [1], 2⟩ (by decide)

/-- Claim C9: `AEFreeAudioBufferList` frees exactly the blocks at the
non-NULL buffer data pointers (skipping NULL ones) and the container's
own block; every other live block is untouched. -/
theorem claim_C9_free_releases_exactly (cAddr : Int) (bufferList : AudioBufferList)
    (h : Heap) (hnd : h.keysNodup) (b : Int) :
    List.lookup b (AEFreeAudioBufferList cAddr bufferList h).blocks =
      if b = cAddr ∨ b ∈ bufferList.mBuffers.filterMap AudioBuffer.mData then none
      else List.lookup b h.blocks := by
  unfold AEFreeAudioBufferList
  by_cases hbc : b = cAddr
  · subst hbc
    rw [if_pos (Or.inl rfl)]
    show List.lookup b ((freeBuffers h bufferList.mBuffers).free b).blocks = none
    unfold Heap.free
    exact lookup_eraseP_self (freeBuffers_keysNodup bufferList.mBuffers h hnd)
  · have hstep : List.lookup b ((freeBuffers h bufferList.mBuffers).free cAddr).blocks
        = List.lookup b (freeBuffers h bufferList.mBuffers).blocks := by
      unfold Heap.free
      exact lookup_eraseP_ne hbc _
    rw [hstep, freeBuffers_lookup bufferList.mBuffers h hnd b]
    by_cases hmem : b ∈ bufferList.mBuffers.filterMap AudioBuffer.mData
    · rw [if_pos hmem, if_pos (Or.inr hmem)]
    · rw [if_neg hmem, if_neg (by
        intro hor
        rcases hor with h1 | h2
        · exact hbc h1
        · exact hmem h2)]

/-- Witness for C9: a container with one owned buffer (address 0) and one
NULL-data buffer, whose struct lives at address 5; the owned block is
freed (lookup is `none`) and the call is well-defined despite the NULL
buffer. -/
theorem claim_C9_free_releases_exactly_witness :
    List.lookup 0 (AEFreeAudioBufferList 5 ⟨[⟨1, 4, some 0⟩, ⟨1, 0, none⟩]⟩
        ⟨6, [(0, [1, 2, 3, 4]), (5, List.replicate 24 0)], [], 2⟩).blocks =
      if (0 : Int) = 5 ∨ (0 : Int) ∈
          (AudioBufferList.mk [⟨1, 4, some 0⟩, ⟨1, 0, none⟩]).mBuffers.filterMap
            AudioBuffer.mData then none
      else List.lookup 0 (⟨6, [(0, [1, 2, 3, 4]), (5, List.replicate 24 0)], [], 2⟩
        : Heap).blocks :=
  claim_C9_free_releases_exactly 5 ⟨[⟨1, 4, some 0⟩, ⟨1, 0, none⟩]⟩
    ⟨6, [(0, [1, 2, 3, 4]), (5, List.replicate 24 0)], [], 2⟩ (by decide) 0

/-- Claim C10: `AECopyAudioBufferList` does not preserve NULL data
pointers of zero-sized source buffers: it attempts one allocation per
source buffer (plus one for the container) no matter what, fails if any
of those allocations fails, and on success every buffer of the copy has
a non-NULL data pointer. -/
theorem claim_C10_copy_reallocates_null_buffers (original : AudioBufferList)
    (h : Heap)
    (hnull : ∃ b ∈ original.mBuffers, b.mData = none ∧ b.mDataByteSize = 0) :
    ((AECopyAudioBufferList original h).1.isSome = true ↔
      ∀ j, j < original.mBuffers.length + 1 → (h.count + j) ∉ h.failAt) ∧
    (∀ (p : Int × AudioBufferList) (h' : Heap),
      AECopyAudioBufferList original h = (some p, h') →
      ∀ b ∈ p.2.mBuffers, b.mData.isSome = true) := by
  constructor
  · simp only [AECopyAudioBufferList]
    by_cases hc : h.count ∈ h.failAt
    · have hm : h.malloc (ablMallocSize original.mBuffers.length)
          = (none, { h with count := h.count + 1 }) := by
        unfold Heap.malloc
        rw [if_pos hc]
      rw [hm]
      dsimp only
      constructor
      · intro hx
        simp at hx
      · intro hall
        exact absurd hc (by simpa using hall 0 (by omega))
    · have hm : h.malloc (ablMallocSize original.mBuffers.length)
          = (some h.next, ⟨h.next + 1,
              (h.next, List.replicate (ablMallocSize original.mBuffers.length) 0)
                :: h.blocks, h.failAt, h.count + 1⟩) := by
        unfold Heap.malloc
        rw [if_neg hc]
      rw [hm]
      dsimp only
      have hiff := copyBuffersLoop_isSome original.mBuffers
        ⟨h.next + 1,
          (h.next, List.replicate (ablMallocSize original.mBuffers.length) 0)
            :: h.blocks, h.failAt, h.count + 1⟩ []
      cases hloop : copyBuffersLoop original.mBuffers
          ⟨h.next + 1,
            (h.next, List.replicate (ablMallocSize original.mBuffers.length) 0)
              :: h.blocks, h.failAt, h.count + 1⟩ [] with
      | mk ob h2 =>
        rw [hloop] at hiff
        cases ob with
        | none =>
          dsimp only
          constructor
          · intro hx
            simp at hx
          · intro hall
            rcases (by simpa using hiff :
                ∃ j, j < original.mBuffers.length ∧ h.count + 1 + j ∈ h.failAt)
              with ⟨j, hj, hjin⟩
            have hcontr := hall (j + 1) (by omega)
            have heq : h.count + (j + 1) = h.count + 1 + j := by omega
            rw [heq] at hcontr
            exact absurd hjin hcontr
        | some bufs =>
          dsimp only
          constructor
          · intro _ j hj
            cases j with
            | zero => simpa using hc
            | succ j =>
              have hall' := (by simpa using hiff :
                ∀ j, j < original.mBuffers.length →
                  h.count + 1 + j ∉ h.failAt) j (by omega)
              have heq : h.count + (j + 1) = h.count + 1 + j := by omega
              rw [heq]
              exact hall'
          · intro _
            rfl
  · intro p h' hs b hb
    rcases AECopy_some_elim hs with ⟨h1, bufs, _, hloop, hp2⟩
    rw [hp2] at hb
    rcases copyBuffersLoop_some_data hloop b hb with hacc | hdata
    · cases hacc
    · exact hdata

/-- Witness for C10: copying a container whose single buffer has a NULL
pointer and zero size, on the empty no-failure heap. -/
theorem claim_C10_copy_reallocates_null_buffers_witness :
    ((AECopyAudioBufferList ⟨[⟨1, 0, none⟩]⟩ ⟨0, [], [], 0⟩).1.isSome = true ↔
      ∀ j, j < (AudioBufferList.mk [⟨1, 0, none⟩]).mBuffers.length + 1 →
        ((⟨0, [], [], 0⟩ : Heap).count + j) ∉ (⟨0, [], [], 0⟩ : Heap).failAt) ∧
    (∀ (p : Int × AudioBufferList) (h' : Heap),
      AECopyAudioBufferList ⟨[⟨1, 0, none⟩]⟩ ⟨0, [], [], 0⟩ = (some p, h') →
      ∀ b ∈ p.2.mBuffers, b.mData.isSome = true) :=
  claim_C10_copy_reallocates_null_buffers ⟨[⟨1, 0, none⟩]⟩ ⟨0, [], [], 0⟩
    ⟨⟨1, 0, none⟩, by simp, rfl, rfl⟩

/-- Claim C3: on success, `AECopyAudioBufferList` produces a container
with the same buffer count, each buffer carrying the same byte size and
channel count, a data pointer distinct from every source pointer
(independent backing storage), and block contents byte-for-byte equal to
the source block; the source container's blocks are never modified,
whether the copy succeeds or fails. -/
theorem claim_C3_copy_deep_independent (original : AudioBufferList) (h : Heap)
    (hkeys : h.keysBound) (hsrc : sourceWF original h) :
    (∀ (p : Int × AudioBufferList) (h' : Heap),
      AECopyAudioBufferList original h = (some p, h') →
      List.Forall₂ (fun b s =>
        b.mNumberChannels = s.mNumberChannels ∧
        b.mDataByteSize = s.mDataByteSize ∧
        ∃ a, b.mData = some a ∧ s.mData ≠ some a ∧
          ∀ sa, s.mData = some sa →
            List.lookup a h'.blocks = List.lookup sa h.blocks)
        p.2.mBuffers original.mBuffers ∧
      p.2.mBuffers.length = original.mBuffers.length ∧
      (∀ x, x < h.next → List.lookup x h'.blocks = List.lookup x h.blocks)) ∧
    (∀ h' : Heap,
      AECopyAudioBufferList original h = (none, h') →
      ∀ x, x < h.next → List.lookup x h'.blocks = List.lookup x h.blocks) := by
  constructor
  · intro p h' hs
    rcases AECopy_some_elim hs with ⟨h1, bufs, hm, hloop, hp2⟩
    rcases Heap.malloc_some hm with ⟨_, _, hh1⟩
    subst hh1
    have hsrcnext : ∀ b ∈ original.mBuffers, ∀ sa, b.mData = some sa →
        sa < h.next + 1 := by
      intro b hb sa hsa
      rcases hsrc b hb with ⟨sa0, cs0, hsd0, hlookup0, _⟩
      rw [hsd0] at hsa
      cases hsa
      exact lt_trans (hkeys _ (mem_of_lookup_eq_some hlookup0)) (lt_add_one _)
    rcases copyBuffersLoop_some hloop hsrcnext with ⟨_, pres2, tail, hbufs, hf⟩
    rw [List.reverse_nil, List.nil_append] at hbufs
    subst hbufs
    have hpres : ∀ x, x < h.next →
        List.lookup x h'.blocks = List.lookup x h.blocks := by
      intro x hx
      rw [pres2 x (lt_trans hx (lt_add_one _))]
      show List.lookup x ((h.next,
        List.replicate (ablMallocSize original.mBuffers.length) 0) :: h.blocks)
        = List.lookup x h.blocks
      rw [lookup_cons, if_neg (ne_of_lt hx)]
    refine ⟨?_, ?_, hpres⟩
    · rw [hp2]
      refine forall₂_imp_mem hf ?_
      intro s hsmem b hP
      rcases hP with ⟨hc, hsz, a, hdata, hle, hlook⟩
      rcases hsrc s hsmem with ⟨sa0, cs0, hsd0, hlookup0, hlen0⟩
      have hsa0lt : sa0 < h.next := hkeys _ (mem_of_lookup_eq_some hlookup0)
      have hane : s.mData ≠ some a := by
        rw [hsd0]
        intro heq
        cases heq
        exact absurd hle (not_le.mpr (lt_trans hsa0lt (lt_add_one _)))
      refine ⟨hc, hsz, a, hdata, hane, ?_⟩
      intro sa hsa
      rw [hsd0] at hsa
      cases hsa
      rw [hlook, hsd0]
      show some (memcpyContents (List.lookup sa0 ((h.next,
        List.replicate (ablMallocSize original.mBuffers.length) 0) :: h.blocks))
        s.mDataByteSize) = List.lookup sa0 h.blocks
      rw [lookup_cons, if_neg (ne_of_lt hsa0lt), hlookup0]
      show some (cs0.take s.mDataByteSize
        ++ List.replicate (s.mDataByteSize - cs0.length) 0) = some cs0
      rw [← hlen0, List.take_length, Nat.sub_self, List.replicate_zero,
        List.append_nil]
    · rw [hp2]
      exact List.Forall₂.length_eq hf
  · intro h' hn x hx
    rw [AECopy_none_blocks h hkeys original h' hn]

/-- Witness for C3: copying a two-buffer container whose blocks live at
addresses 0 and 1 of a concrete heap; the copy has the same buffer
count. -/
theorem claim_C3_copy_deep_independent_witness :
    (AudioBufferList.mk [⟨1, 4, some 3⟩, ⟨1, 4, some 4⟩]).mBuffers.length
      = (AudioBufferList.mk [⟨1, 4, some 0⟩, ⟨1, 4, some 1⟩]).mBuffers.length :=
  ((claim_C3_copy_deep_independent ⟨[⟨1, 4, some 0⟩, ⟨1, 4, some 1⟩]⟩
      ⟨2, [(0, [1, 2, 3, 4]), (1, [5, 6, 7, 8])], [], 0⟩ (by decide)
      (by
        intro b hb
        rcases List.mem_cons.mp hb with h1 | h2
        · subst h1
          exact ⟨0, [1, 2, 3, 4], rfl, rfl, rfl⟩
        · rcases List.mem_cons.mp h2 with h3 | h4
          · subst h3
            exact ⟨1, [5, 6, 7, 8], rfl, rfl, rfl⟩
          · cases h4)).1
    (2, ⟨[⟨1, 4, some 3⟩, ⟨1, 4, some 4⟩]⟩)
    ⟨5, [(4, [5, 6, 7, 8]), (3, [1, 2, 3, 4]),
         (2, List.replicate 40 0), (0, [1, 2, 3, 4]), (1, [5, 6, 7, 8])], [], 3⟩
    (by decide)).2.1

/-- Claim C5: for nonzero bits-per-channel and nonzero computed channel
count, the frame-count query returns the first buffer's byte size
divided by `(bits-per-channel / 8) * channelCount`, where the channel
count is the number of buffers when non-interleaved and otherwise the
first buffer's recorded channel count, and that channel count is what is
written to the optional output. -/
theorem claim_C5_frame_count_query (list : AudioBufferList) (audioFormat : ASBD)
    (_hbits : audioFormat.mBitsPerChannel ≠ 0)
    (_hch : specChannelCount list audioFormat ≠ 0) :
    AEGetNumberOfFramesInAudioBufferList list audioFormat
      = (specFrameCount list audioFormat, specChannelCount list audioFormat) := rfl

/-- Witness for C5: the spec's concrete interleaved scenario (2 channels,
4 bytes per frame, 16 bits, a 400-byte buffer) yields 100 frames and 2
channels. -/
theorem claim_C5_frame_count_query_witness :
    AEGetNumberOfFramesInAudioBufferList ⟨[⟨2, 400, some 0⟩]⟩ ⟨false, 2, 4, 16⟩
      = (100, 2) :=
  (claim_C5_frame_count_query ⟨[⟨2, 400, some 0⟩]⟩ ⟨false, 2, 4, 16⟩
    (by decide) (by decide)).trans (by decide)

/-- The first component of the frame-count query, unfolded. -/
theorem AEGet_fst (list : AudioBufferList) (audioFormat : ASBD) :
    (AEGetNumberOfFramesInAudioBufferList list audioFormat).1
      = list.mBuffers.headI.mDataByteSize
        / ((audioFormat.mBitsPerChannel / 8) *
          (if audioFormat.isNonInterleaved then list.mBuffers.length
           else list.mBuffers.headI.mNumberChannels)) := rfl

/-- Counterexample to C6 as stated: an interleaved format whose
`mBytesPerFrame` (8) disagrees with `(bitsPerChannel/8) * channels` (4).
`allocate` succeeds at frame count 1, the division in the frame-count
computation is exact (remainder 0), yet the query returns 2 frames, not
1. -/
theorem claim_C6_roundtrip_counterexample :
    ((AEAllocateAndInitAudioBufferList ⟨false, 2, 8, 16⟩ 1 ⟨0, [], [], 0⟩).1.map
        (fun p => (AEGetNumberOfFramesInAudioBufferList p.2 ⟨false, 2, 8, 16⟩).1)
      = some 2) ∧
    ((AEAllocateAndInitAudioBufferList ⟨false, 2, 8, 16⟩ 1 ⟨0, [], [], 0⟩).1.map
        (fun p => p.2.mBuffers.headI.mDataByteSize
          % (((⟨false, 2, 8, 16⟩ : ASBD).mBitsPerChannel / 8) * 2))
      = some 0) ∧
    (2 : Nat) ≠ 1 := by decide

/-- Claim C6 (amended): for formats whose `mBytesPerFrame` is consistent
with the sample layout (`mBytesPerFrame = (bitsPerChannel/8) *
mChannelsPerFrame`, nonzero) and frame counts that are nonnegative with
`mBytesPerFrame * frameCount` below `2^31` (so the 32-bit product does
not wrap), the frame count measured on a successfully allocated
container equals the allocated frame count. -/
theorem claim_C6_roundtrip_amended (audioFormat : ASBD) (frameCount : Int)
    (h : Heap) (p : Int × AudioBufferList) (h' : Heap)
    (hbpf : audioFormat.mBytesPerFrame
      = (audioFormat.mBitsPerChannel / 8) * audioFormat.mChannelsPerFrame)
    (hpos : 0 < (audioFormat.mBitsPerChannel / 8) * audioFormat.mChannelsPerFrame)
    (hF : 0 ≤ frameCount)
    (hnw : audioFormat.mBytesPerFrame * frameCount.toNat < 2 ^ 31)
    (hs : AEAllocateAndInitAudioBufferList audioFormat frameCount h = (some p, h')) :
    ((AEGetNumberOfFramesInAudioBufferList p.2 audioFormat).1 : Int) = frameCount := by
  rcases AEAllocate_some_elim hs with ⟨h1, bufs, _, hloop, hp2⟩
  rcases allocBuffersLoop_some hloop with ⟨tail, hbufs, hlen, hprops⟩
  rw [List.reverse_nil, List.nil_append] at hbufs
  subst hbufs
  have hsize := (bytesPerBufferOf_no_overflow hF hnw).2
  have hbpfpos : 0 < audioFormat.mBytesPerFrame := by
    rw [hbpf]
    exact hpos
  have hchpos : 0 < audioFormat.mChannelsPerFrame := by
    rcases Nat.eq_zero_or_pos audioFormat.mChannelsPerFrame with h0 | hp'
    · rw [h0, Nat.mul_zero] at hpos
      exact absurd hpos (lt_irrefl 0)
    · exact hp'
  have hnat : (AEGetNumberOfFramesInAudioBufferList p.2 audioFormat).1
      = frameCount.toNat := by
    rw [hp2, AEGet_fst]
    cases hni : audioFormat.isNonInterleaved with
    | true =>
      have hcount : computedBufferCount audioFormat
          = audioFormat.mChannelsPerFrame := by
        rw [computedBufferCount, hni, if_pos rfl]
      rw [hcount] at hlen
      have hnil : bufs ≠ [] := by
        intro h0
        rw [h0] at hlen
        rw [List.length_nil] at hlen
        omega
      have hmem : bufs.headI ∈ bufs := by
        cases bufs with
        | nil => exact absurd rfl hnil
        | cons b t => exact List.mem_cons_self _ _
      rcases hprops bufs.headI hmem with ⟨_, hsz, _⟩
      rw [if_pos rfl]
      show bufs.headI.mDataByteSize
        / ((audioFormat.mBitsPerChannel / 8) * bufs.length) = frameCount.toNat
      rw [hsz, hsize, hlen, ← hbpf]
      exact Nat.mul_div_cancel_left frameCount.toNat hbpfpos
    | false =>
      have hcount : computedBufferCount audioFormat = 1 := by
        rw [computedBufferCount, hni]
        simp
      rw [hcount] at hlen
      have hch : channelsPerBufferOf audioFormat
          = audioFormat.mChannelsPerFrame := by
        rw [channelsPerBufferOf, hni]
        simp
      cases bufs with
      | nil => rw [List.length_nil] at hlen; omega
      | cons b t =>
        rcases hprops b (List.mem_cons_self _ _) with ⟨hbch, hsz, _⟩
        rw [if_neg Bool.false_ne_true]
        show b.mDataByteSize
          / ((audioFormat.mBitsPerChannel / 8) * b.mNumberChannels)
            = frameCount.toNat
        rw [hsz, hsize, hbch, hch, ← hbpf]
        exact Nat.mul_div_cancel_left frameCount.toNat hbpfpos
  rw [hnat]
  exact Int.toNat_of_nonneg hF

/-- Witness for C6 (amended): interleaved stereo 16-bit (4 bytes per
frame), 5 frames, on the empty no-failure heap: the query returns 5. -/
theorem claim_C6_roundtrip_amended_witness :
    ((AEGetNumberOfFramesInAudioBufferList
      (AudioBufferList.mk [⟨2, 20, some 1⟩]) ⟨false, 2, 4, 16⟩).1 : Int) = 5 :=
  claim_C6_roundtrip_amended ⟨false, 2, 4, 16⟩ 5 ⟨0, [], [], 0⟩
    (0, ⟨[⟨2, 20, some 1⟩]⟩)
    ⟨2, [(1, List.replicate 20 0), (0, List.replicate 24 0)], [], 2⟩
    (by decide) (by decide) (by decide) (by decide) (by decide)

/-- Counterexample to C7 as stated: with a non-interleaved 3-channel
format (computed buffer count 3) and a 40-byte region — too small for 3
buffer descriptors, which need 56 bytes — the call is not rejected: the
assertion (which only checks space for 2 descriptors) does not fire. -/
theorem claim_C7_assert_counterexample :
    (AEInitAudioBufferList [⟨0, 0, none⟩] 40 ⟨true, 3, 4, 16⟩ 0 0).isSome = true ∧
    40 < sizeofAudioBufferList
      + (computedBufferCount ⟨true, 3, 4, 16⟩ - 1) * sizeofAudioBuffer := by decide

/-- Claim C7 (amended): if the computed buffer count exceeds 1 and the
region is large enough for that many descriptors, the assertion never
fires; the assertion fires exactly when the buffer count is not 1 and
the region is smaller than a container with 2 descriptors (so a region
too small for 3 or more descriptors, but at least that size, is not
caught). -/
theorem claim_C7_assert_amended (slots : List AudioBuffer) (listSize : Nat)
    (audioFormat : ASBD) (data dataSize : Int) :
    (1 < computedBufferCount audioFormat →
      sizeofAudioBufferList
        + (computedBufferCount audioFormat - 1) * sizeofAudioBuffer ≤ listSize →
      (AEInitAudioBufferList slots listSize audioFormat data dataSize).isSome
        = true) ∧
    (AEInitAudioBufferList slots listSize audioFormat data dataSize = none ↔
      computedBufferCount audioFormat ≠ 1 ∧
      listSize < sizeofAudioBufferList + sizeofAudioBuffer) := by
  constructor
  · intro hn hsz
    have hcap : sizeofAudioBufferList + sizeofAudioBuffer ≤ listSize := by
      simp only [sizeofAudioBufferList, sizeofAudioBuffer] at hsz ⊢
      omega
    simp only [AEInitAudioBufferList]
    rw [if_pos (Or.inr hcap)]
    rfl
  · by_cases hcond : computedBufferCount audioFormat = 1 ∨
        sizeofAudioBufferList + sizeofAudioBuffer ≤ listSize
    · simp only [AEInitAudioBufferList]
      rw [if_pos hcond]
      constructor
      · intro hx
        cases hx
      · intro hx
        rcases hcond with h1 | h2
        · exact absurd h1 hx.1
        · exact absurd h2 (not_le.mpr hx.2)
    · simp only [AEInitAudioBufferList]
      rw [if_neg hcond]
      push_neg at hcond
      exact ⟨fun _ => ⟨hcond.1, hcond.2⟩, fun _ => rfl⟩

/-- Witness for C7 (amended): a non-interleaved 2-channel format with a
56-byte region (enough for 2 descriptors): the call completes, no
assertion failure. -/
theorem claim_C7_assert_amended_witness :
    (AEInitAudioBufferList [⟨0, 0, none⟩, ⟨0, 0, none⟩] 56 ⟨true, 2, 4, 16⟩ 0 8).isSome
      = true :=
  (claim_C7_assert_amended [⟨0, 0, none⟩, ⟨0, 0, none⟩] 56 ⟨true, 2, 4, 16⟩ 0 8).1
    (by decide) (by decide)

/-- Claim C4 (code evaluation at the failing input): for a
non-interleaved 2-channel format over an 8-byte region based at address
100, the in-place initializer leaves descriptor slot 1 untouched and
leaves slot 0 pointing at offset `1 * (8/2)` (the last loop iteration),
because the loop body writes `mBuffers[0]` on every iteration; the claim
would require slot 0 = pointer 100 and slot 1 = pointer 104. -/
theorem claim_C4_init_writes_slot_zero_only :
    AEInitAudioBufferList [⟨0, 0, none⟩, ⟨0, 0, none⟩] 40 ⟨true, 2, 4, 16⟩ 100 8
      = some ⟨2, [⟨1, 4, some 104⟩, ⟨0, 0, none⟩]⟩ ∧
    (⟨1, 4, some 104⟩ : AudioBuffer) ≠ ⟨1, 4, some 100⟩ ∧
    (⟨0, 0, none⟩ : AudioBuffer) ≠ ⟨1, 4, some 104⟩ := by decide
